import Mathlib

/-
  Verification development for the HyperCalc expression engine (src/app.js).

  The model covers: the tokenizer (`tokenize`), the shunting-yard converter
  (`toRPN`), the postfix evaluator (`evaluateRPN`), the top-level `solve`,
  and the graph-sampling loop of `drawGraph` (`sampleColumns`).

  JavaScript numbers are modelled as exact real numbers extended with the
  special values Infinity, -Infinity and NaN, plus `undefined` (the result
  of popping an empty stack).  Floating-point rounding, overflow and the
  sign of zero are not modelled; otherwise each definition follows the
  corresponding JavaScript source line by line.
-/

/-- Global angle mode `STATE.angleMode` of src/app.js ('DEG' or 'RAD'). -/
inductive AngleMode where
  | DEG
  | RAD
deriving DecidableEq

/-- Character class `[0-9.]` of the tokenizer regex. -/
def isNumChar (c : Char) : Bool := ('0' ≤ c && c ≤ '9') || c = '.'

/-- Character class `[a-z]` of the tokenizer regex. -/
def isIdChar (c : Char) : Bool := 'a' ≤ c && c ≤ 'z'

/-- The single-character alternatives `\(|\)|\+|-|\*|\/|\^` of the tokenizer regex. -/
def isOpChar (c : Char) : Bool :=
  c = '(' || c = ')' || c = '+' || c = '-' || c = '*' || c = '/' || c = '^'

/-- Which maximal-run class the scanner is currently inside. -/
inductive RunClass where
  | numRun
  | idRun
deriving DecidableEq

/-- Emit the pending maximal run (if any) as one token. -/
def flushTok : Option (RunClass × List Char) → List String
  | none => []
  | some (_, r) => [String.mk r]

/-- Left-to-right scanner equivalent to
    `expr.match(/([0-9.]+|[a-z]+|\(|\)|\+|-|\*|\/|\^)/g) || []`:
    maximal runs of `[0-9.]` and `[a-z]`, single-character operators and
    parentheses; every other character is silently skipped. -/
def tokenizeAux : Option (RunClass × List Char) → List Char → List String
  | acc, [] => flushTok acc
  | acc, c :: cs =>
    if isNumChar c then
      match acc with
      | some (RunClass.numRun, r) => tokenizeAux (some (RunClass.numRun, r ++ [c])) cs
      | some (RunClass.idRun, r) => [String.mk r] ++ tokenizeAux (some (RunClass.numRun, [c])) cs
      | none => tokenizeAux (some (RunClass.numRun, [c])) cs
    else if isIdChar c then
      match acc with
      | some (RunClass.idRun, r) => tokenizeAux (some (RunClass.idRun, r ++ [c])) cs
      | some (RunClass.numRun, r) => [String.mk r] ++ tokenizeAux (some (RunClass.idRun, [c])) cs
      | none => tokenizeAux (some (RunClass.idRun, [c])) cs
    else if isOpChar c then
      flushTok acc ++ [String.mk [c]] ++ tokenizeAux none cs
    else
      flushTok acc ++ tokenizeAux none cs

/-- `MathEngine.tokenize` (src/app.js line 30). -/
def tokenize (s : String) : List String := tokenizeAux none s.data

/-- Decimal digit test (`parseFloat` accepts only digits and one dot here). -/
def isDigitChar (c : Char) : Bool := '0' ≤ c && c ≤ '9'

/-- Value of a string of decimal digits. -/
def natOfDigits (cs : List Char) : ℕ :=
  cs.foldl (fun n c => 10 * n + (c.toNat - '0'.toNat)) 0

/-- JavaScript `parseFloat` restricted to the strings the tokenizer can
    produce (runs of `[0-9.]`, runs of `[a-z]`, single operator characters):
    an optional integer part, an optional dot and fraction part, ignoring
    everything after; `none` models a `NaN` result (no digit found).  Sign,
    exponent and `Infinity` syntax never occur in tokenizer output. -/
def parseFloat? (s : String) : Option ℚ :=
  let cs := s.data
  let ip := cs.takeWhile isDigitChar
  let rest := cs.dropWhile isDigitChar
  match rest with
  | '.' :: rest2 =>
    let fp := rest2.takeWhile isDigitChar
    if ip.isEmpty && fp.isEmpty then none
    else some ((natOfDigits ip : ℚ) + (natOfDigits fp : ℚ) / (10 : ℚ) ^ fp.length)
  | _ => if ip.isEmpty then none else some (natOfDigits ip)

/-- An element of the RPN output array: `output.push(parseFloat(token))`
    pushes a number, every other push is a string. -/
inductive RTok where
  | num (q : ℚ)
  | sym (s : String)
deriving DecidableEq

/-- The function-valued lowercase own properties of `Math` — the names for
    which `token in Math` can hold for a tokenizer identifier token.
    Names containing a digit or an uppercase letter (`atan2`, `clz32`,
    `expm1`, `log2`, `log10`, `log1p`, `PI`, `E`, …) can never be produced
    by the `[a-z]+` token class and are omitted.  The `in` test also sees
    inherited properties: the all-lowercase `constructor` of
    `Object.prototype` is in `Math` too and is handled in `isMathFn`. -/
def mathFnNames : List String :=
  ["abs", "acos", "acosh", "asin", "asinh", "atan", "atanh", "cbrt", "ceil",
   "cos", "cosh", "exp", "floor", "fround", "hypot", "imul", "log", "max",
   "min", "pow", "random", "round", "sign", "sin", "sinh", "sqrt", "tan",
   "tanh", "trunc"]

/-- `token in Math` for tokenizer tokens: the own function-valued
    properties, plus the inherited `Object.prototype` property
    `constructor` (`Math.constructor` is the `Object` function). -/
def isMathFn (s : String) : Bool := mathFnNames.contains s || s = "constructor"

/-- The `precedence` object `{'^': 4, '*': 3, '/': 3, '+': 2, '-': 2, '(': 0}`;
    `none` models an absent property (`undefined`). -/
def precedence (t : String) : Option ℕ :=
  if t = "^" then some 4
  else if t = "*" || t = "/" then some 3
  else if t = "+" || t = "-" then some 2
  else if t = "(" then some 0
  else none

/-- `associativity[token] === 'Right'`: only `'^'` is marked Right. -/
def assocRight (t : String) : Bool := t = "^"

/-- JavaScript `>=` on two property lookups: false whenever either side is
    `undefined` (NaN comparison), otherwise numeric comparison. -/
def geJS : Option ℕ → Option ℕ → Bool
  | some a, some b => decide (b ≤ a)
  | _, _ => false

/-- The pop loop of the operator branch of `toRPN`:
    `while (stack.length && precedence[top] >= precedence[token]) {
       if (precedence[top] === precedence[token] && assoc[token] === 'Right') break;
       output.push(stack.pop()); }`
    Returns the popped prefix (in pop order) and the remaining stack. -/
def popOps : List String → String → List String × List String
  | [], _ => ([], [])
  | s :: rest, t =>
    if geJS (precedence s) (precedence t) then
      if precedence s = precedence t ∧ assocRight t = true then ([], s :: rest)
      else
        let pr := popOps rest t
        (s :: pr.1, pr.2)
    else ([], s :: rest)

/-- The pop loop of the `)` branch:
    `while (stack.length && stack[stack.length-1] !== '(') output.push(stack.pop())`.
    Returns the popped prefix (in pop order) and the remaining stack. -/
def popUntilParen : List String → List String × List String
  | [] => ([], [])
  | s :: rest =>
    if s = "(" then ([], s :: rest)
    else
      let pr := popUntilParen rest
      (s :: pr.1, pr.2)

/-- State of the shunting-yard loop: the `output` array and the operator
    `stack` (top of stack at the head of the list; the JS array stores the
    top at the end and `stack[0]` is the bottom). -/
structure SY where
  out : List RTok
  stk : List String
deriving DecidableEq

/-- The `)` branch of `toRPN`: pop to output until `'('`, discard the `'('`
    (`stack.pop()` on an empty stack is a no-op), then pop a function name
    to output if one is on top. -/
def handleRParen (st : SY) : SY :=
  let pr := popUntilParen st.stk
  let rest2 := pr.2.tail
  match rest2 with
  | f :: r2 =>
    if isMathFn f then ⟨st.out ++ pr.1.map RTok.sym ++ [RTok.sym f], r2⟩
    else ⟨st.out ++ pr.1.map RTok.sym, f :: r2⟩
  | [] => ⟨st.out ++ pr.1.map RTok.sym, []⟩

/-- The operator branch of `toRPN`: pop by precedence, then push the token. -/
def handleOp (st : SY) (t : String) : SY :=
  let pr := popOps st.stk t
  ⟨st.out ++ pr.1.map RTok.sym, t :: pr.2⟩

/-- One iteration of the `tokens.forEach` loop of `toRPN`, with the source's
    dispatch order: number (`!isNaN(parseFloat(token))`), `token in Math`,
    `'('`, `')'`, then `precedence[token]` truthy (so a precedence of `0`
    or an absent entry falls through and the token is silently dropped). -/
def syStep (st : SY) (t : String) : SY :=
  match parseFloat? t with
  | some q => ⟨st.out ++ [RTok.num q], st.stk⟩
  | none =>
    if isMathFn t then ⟨st.out, t :: st.stk⟩
    else if t = "(" then ⟨st.out, t :: st.stk⟩
    else if t = ")" then handleRParen st
    else
      match precedence t with
      | some p => if p ≠ 0 then handleOp st t else st
      | none => st

/-- Run the shunting-yard loop over a token list. -/
def syList (st : SY) (ts : List String) : SY := ts.foldl syStep st

/-- `MathEngine.toRPN` (src/app.js lines 38-70): run the loop from empty
    state, then flush the whole remaining stack to the output
    (`while (stack.length) output.push(stack.pop())`). -/
def toRPN (tokens : List String) : List RTok :=
  let st := syList ⟨[], []⟩ tokens
  st.out ++ st.stk.map RTok.sym

/-- A JavaScript value of the evaluator: a finite real, `Infinity`,
    `-Infinity`, `NaN`, `undefined` (what `stack.pop()` yields on an empty
    stack), or an object wrapper `wrap v` — what `Math["constructor"]`,
    i.e. `Object`, returns: `Object(x)` is a Number wrapper coercing back
    to `x` via `valueOf` (`Object(undefined)` is a plain object coercing
    to `NaN`, represented as `wrap nan`). -/
inductive JSVal where
  | num (x : ℝ)
  | inf
  | neginf
  | nan
  | undef
  | wrap (v : JSVal)

/-- `ToNumber` coercion applied by arithmetic: `undefined` becomes `NaN`
    and an object is coerced through `valueOf`/`toPrimitive`.  The result
    is never `undefined` or a wrapper. -/
def toNum : JSVal → JSVal
  | JSVal.undef => JSVal.nan
  | JSVal.wrap v => toNum v
  | v => v

/-- `isFinite(res) && !isNaN(res)`: the coerced value is a finite number. -/
def jsIsFinite (v : JSVal) : Bool :=
  match toNum v with
  | JSVal.num _ => true
  | _ => false

/-- JavaScript `a + b` on numbers (overflow not modelled). -/
noncomputable def jsAdd (a b : JSVal) : JSVal :=
  match toNum a, toNum b with
  | JSVal.num x, JSVal.num y => JSVal.num (x + y)
  | JSVal.nan, _ => JSVal.nan
  | _, JSVal.nan => JSVal.nan
  | JSVal.undef, _ => JSVal.nan
  | _, JSVal.undef => JSVal.nan
  | JSVal.inf, JSVal.neginf => JSVal.nan
  | JSVal.neginf, JSVal.inf => JSVal.nan
  | JSVal.inf, _ => JSVal.inf
  | _, JSVal.inf => JSVal.inf
  | JSVal.neginf, _ => JSVal.neginf
  | _, JSVal.neginf => JSVal.neginf
  | _, _ => JSVal.nan

/-- JavaScript `a - b` on numbers. -/
noncomputable def jsSub (a b : JSVal) : JSVal :=
  match toNum a, toNum b with
  | JSVal.num x, JSVal.num y => JSVal.num (x - y)
  | JSVal.nan, _ => JSVal.nan
  | _, JSVal.nan => JSVal.nan
  | JSVal.undef, _ => JSVal.nan
  | _, JSVal.undef => JSVal.nan
  | JSVal.inf, JSVal.inf => JSVal.nan
  | JSVal.neginf, JSVal.neginf => JSVal.nan
  | JSVal.inf, _ => JSVal.inf
  | JSVal.neginf, _ => JSVal.neginf
  | _, JSVal.inf => JSVal.neginf
  | _, JSVal.neginf => JSVal.inf
  | _, _ => JSVal.nan

/-- JavaScript `a * b` on numbers (`±Infinity * 0` is `NaN`). -/
noncomputable def jsMul (a b : JSVal) : JSVal :=
  match toNum a, toNum b with
  | JSVal.num x, JSVal.num y => JSVal.num (x * y)
  | JSVal.nan, _ => JSVal.nan
  | _, JSVal.nan => JSVal.nan
  | JSVal.undef, _ => JSVal.nan
  | _, JSVal.undef => JSVal.nan
  | JSVal.inf, JSVal.inf => JSVal.inf
  | JSVal.inf, JSVal.neginf => JSVal.neginf
  | JSVal.neginf, JSVal.inf => JSVal.neginf
  | JSVal.neginf, JSVal.neginf => JSVal.inf
  | JSVal.inf, JSVal.num y =>
    if 0 < y then JSVal.inf else if y < 0 then JSVal.neginf else JSVal.nan
  | JSVal.num x, JSVal.inf =>
    if 0 < x then JSVal.inf else if x < 0 then JSVal.neginf else JSVal.nan
  | JSVal.neginf, JSVal.num y =>
    if 0 < y then JSVal.neginf else if y < 0 then JSVal.inf else JSVal.nan
  | JSVal.num x, JSVal.neginf =>
    if 0 < x then JSVal.neginf else if x < 0 then JSVal.inf else JSVal.nan
  | _, _ => JSVal.nan

/-- JavaScript `a / b` on numbers (`x/0` is a signed infinity for `x ≠ 0`
    and `NaN` for `0/0`; the sign of a zero divisor is not modelled). -/
noncomputable def jsDiv (a b : JSVal) : JSVal :=
  match toNum a, toNum b with
  | JSVal.num x, JSVal.num y =>
    if y = 0 then
      (if 0 < x then JSVal.inf else if x < 0 then JSVal.neginf else JSVal.nan)
    else JSVal.num (x / y)
  | JSVal.nan, _ => JSVal.nan
  | _, JSVal.nan => JSVal.nan
  | JSVal.undef, _ => JSVal.nan
  | _, JSVal.undef => JSVal.nan
  | JSVal.inf, JSVal.inf => JSVal.nan
  | JSVal.inf, JSVal.neginf => JSVal.nan
  | JSVal.neginf, JSVal.inf => JSVal.nan
  | JSVal.neginf, JSVal.neginf => JSVal.nan
  | JSVal.inf, JSVal.num y => if 0 ≤ y then JSVal.inf else JSVal.neginf
  | JSVal.neginf, JSVal.num y => if 0 ≤ y then JSVal.neginf else JSVal.inf
  | JSVal.num _, JSVal.inf => JSVal.num 0
  | JSVal.num _, JSVal.neginf => JSVal.num 0
  | _, _ => JSVal.nan

open Classical in
/-- `Math.pow` on two finite reals with nonzero exponent: `0` base with a
    negative exponent overflows to `Infinity`; a negative base demands an
    integer exponent (otherwise `NaN`); a positive base uses the real power. -/
noncomputable def jsPowFin (x y : ℝ) : JSVal :=
  if x = 0 then (if 0 < y then JSVal.num 0 else JSVal.inf)
  else if 0 < x then JSVal.num (x ^ y)
  else if h : ∃ n : ℤ, (n : ℝ) = y then JSVal.num (x ^ h.choose) else JSVal.nan

open Classical in
/-- `Math.pow(a, b)` following `Number::exponentiate`: a `NaN` exponent gives
    `NaN`; a zero exponent gives `1` regardless of the base; then a `NaN`
    base gives `NaN`; infinite bases and exponents follow the IEEE table. -/
noncomputable def jsPow (a b : JSVal) : JSVal :=
  match toNum a, toNum b with
  | _, JSVal.nan => JSVal.nan
  | _, JSVal.undef => JSVal.nan
  | base, JSVal.num y =>
    if y = 0 then JSVal.num 1
    else
      match base with
      | JSVal.num x => jsPowFin x y
      | JSVal.inf => if 0 < y then JSVal.inf else JSVal.num 0
      | JSVal.neginf =>
        if 0 < y then
          (if ∃ n : ℤ, Odd n ∧ (n : ℝ) = y then JSVal.neginf else JSVal.inf)
        else JSVal.num 0
      | _ => JSVal.nan
  | JSVal.nan, _ => JSVal.nan
  | JSVal.undef, _ => JSVal.nan
  | JSVal.num x, JSVal.inf =>
    if |x| = 1 then JSVal.nan else if 1 < |x| then JSVal.inf else JSVal.num 0
  | JSVal.num x, JSVal.neginf =>
    if |x| = 1 then JSVal.nan else if 1 < |x| then JSVal.num 0 else JSVal.inf
  | JSVal.inf, JSVal.inf => JSVal.inf
  | JSVal.neginf, JSVal.inf => JSVal.inf
  | JSVal.inf, JSVal.neginf => JSVal.num 0
  | JSVal.neginf, JSVal.neginf => JSVal.num 0
  | _, _ => JSVal.nan

/-- Apply a unary real function with the given values at `±Infinity`;
    `NaN` and `undefined` arguments give `NaN`. -/
noncomputable def onFin (g : ℝ → JSVal) (pinf ninf : JSVal) (v : JSVal) : JSVal :=
  match toNum v with
  | JSVal.num x => g x
  | JSVal.inf => pinf
  | JSVal.neginf => ninf
  | _ => JSVal.nan

/-- `Math.round`: round half toward positive infinity. -/
noncomputable def jsRound (x : ℝ) : ℤ := ⌊x + 1 / 2⌋

/-- `Math.trunc`: round toward zero. -/
noncomputable def jsTrunc (x : ℝ) : ℤ := if 0 ≤ x then ⌊x⌋ else ⌈x⌉

/-- `Math.cbrt`: the real (odd) cube root. -/
noncomputable def jsCbrt (x : ℝ) : ℝ :=
  if 0 ≤ x then x ^ ((1 : ℝ) / 3) else -((-x) ^ ((1 : ℝ) / 3))

/-- `Math[token](val)` for each function name of `mathFnNames`, with the
    standard real semantics and the JavaScript special-value behavior.
    `Math.log` is the NATURAL logarithm (`Math.log10` would be base 10, but
    its name contains a digit and can never be a token).  `fround` is
    modelled as the identity (float32 rounding is not modelled).
    `Math.random()` ignores its argument and returns a nondeterministic
    value in `[0,1)`, modelled here by `0`.  `Math.pow` and `Math.imul`
    called with a single argument give `NaN` and `0` respectively.
    `Math["constructor"]` is the inherited `Object` function: applied to a
    primitive it returns a wrapper object for its coerced value, and it
    returns an object argument unchanged. -/
noncomputable def jsApply (f : String) (v : JSVal) : JSVal :=
  if f = "sin" then onFin (fun x => JSVal.num (Real.sin x)) JSVal.nan JSVal.nan v
  else if f = "cos" then onFin (fun x => JSVal.num (Real.cos x)) JSVal.nan JSVal.nan v
  else if f = "tan" then onFin (fun x => JSVal.num (Real.tan x)) JSVal.nan JSVal.nan v
  else if f = "log" then
    onFin (fun x => if 0 < x then JSVal.num (Real.log x)
                    else if x = 0 then JSVal.neginf else JSVal.nan)
      JSVal.inf JSVal.nan v
  else if f = "sqrt" then
    onFin (fun x => if 0 ≤ x then JSVal.num (Real.sqrt x) else JSVal.nan)
      JSVal.inf JSVal.nan v
  else if f = "abs" then onFin (fun x => JSVal.num |x|) JSVal.inf JSVal.inf v
  else if f = "exp" then
    onFin (fun x => JSVal.num (Real.exp x)) JSVal.inf (JSVal.num 0) v
  else if f = "floor" then
    onFin (fun x => JSVal.num (⌊x⌋ : ℝ)) JSVal.inf JSVal.neginf v
  else if f = "ceil" then
    onFin (fun x => JSVal.num (⌈x⌉ : ℝ)) JSVal.inf JSVal.neginf v
  else if f = "round" then
    onFin (fun x => JSVal.num (jsRound x : ℝ)) JSVal.inf JSVal.neginf v
  else if f = "trunc" then
    onFin (fun x => JSVal.num (jsTrunc x : ℝ)) JSVal.inf JSVal.neginf v
  else if f = "sign" then
    onFin (fun x => JSVal.num (if 0 < x then 1 else if x < 0 then -1 else 0))
      (JSVal.num 1) (JSVal.num (-1)) v
  else if f = "cbrt" then
    onFin (fun x => JSVal.num (jsCbrt x)) JSVal.inf JSVal.neginf v
  else if f = "asin" then
    onFin (fun x => if |x| ≤ 1 then JSVal.num (Real.arcsin x) else JSVal.nan)
      JSVal.nan JSVal.nan v
  else if f = "acos" then
    onFin (fun x => if |x| ≤ 1 then JSVal.num (Real.arccos x) else JSVal.nan)
      JSVal.nan JSVal.nan v
  else if f = "atan" then
    onFin (fun x => JSVal.num (Real.arctan x))
      (JSVal.num (Real.pi / 2)) (JSVal.num (-(Real.pi / 2))) v
  else if f = "sinh" then
    onFin (fun x => JSVal.num (Real.sinh x)) JSVal.inf JSVal.neginf v
  else if f = "cosh" then
    onFin (fun x => JSVal.num (Real.cosh x)) JSVal.inf JSVal.inf v
  else if f = "tanh" then
    onFin (fun x => JSVal.num (Real.tanh x)) (JSVal.num 1) (JSVal.num (-1)) v
  else if f = "asinh" then
    onFin (fun x => JSVal.num (Real.arsinh x)) JSVal.inf JSVal.neginf v
  else if f = "acosh" then
    onFin (fun x => if 1 ≤ x then JSVal.num (Real.log (x + Real.sqrt (x ^ 2 - 1)))
                    else JSVal.nan)
      JSVal.inf JSVal.nan v
  else if f = "atanh" then
    onFin (fun x => if |x| < 1 then JSVal.num (Real.log ((1 + x) / (1 - x)) / 2)
                    else if x = 1 then JSVal.inf
                    else if x = -1 then JSVal.neginf else JSVal.nan)
      JSVal.nan JSVal.nan v
  else if f = "hypot" then onFin (fun x => JSVal.num |x|) JSVal.inf JSVal.inf v
  else if f = "max" then onFin (fun x => JSVal.num x) JSVal.inf JSVal.neginf v
  else if f = "min" then onFin (fun x => JSVal.num x) JSVal.inf JSVal.neginf v
  else if f = "fround" then onFin (fun x => JSVal.num x) JSVal.inf JSVal.neginf v
  else if f = "pow" then JSVal.nan
  else if f = "imul" then JSVal.num 0
  else if f = "random" then JSVal.num 0
  else if f = "constructor" then
    match v with
    | JSVal.wrap w => JSVal.wrap w
    | _ => JSVal.wrap (toNum v)
  else JSVal.nan

/-- `stack.pop()`: yields `undefined` on an empty stack. -/
def jsPop : List JSVal → JSVal × List JSVal
  | [] => (JSVal.undef, [])
  | v :: r => (v, r)

/-- The function-application step of `evaluateRPN`: if the function is
    `sin`, `cos` or `tan` and the angle mode is DEG, the operand is first
    multiplied by `Math.PI / 180`, then `Math[token]` is applied. -/
noncomputable def applyFnMode (mode : AngleMode) (s : String) (a : JSVal) : JSVal :=
  let val :=
    if (s = "sin" ∨ s = "cos" ∨ s = "tan") ∧ mode = AngleMode.DEG then
      jsMul a (JSVal.num (Real.pi / 180))
    else a
  jsApply s val

/-- One iteration of the `rpn.forEach` loop of `evaluateRPN`, acting on the
    value stack (top of stack at the head; the JS array keeps the bottom at
    index 0).  A number is pushed; a string in `Math` pops one operand and
    applies the function; any other string pops two operands (`b` first,
    then `a`) and the `switch` pushes the operator result — or, for a
    string with no `case` (such as a flushed `'('`), pushes nothing. -/
noncomputable def evalStep (mode : AngleMode) (stack : List JSVal) : RTok → List JSVal
  | RTok.num q => JSVal.num (q : ℝ) :: stack
  | RTok.sym s =>
    if isMathFn s then
      let pr := jsPop stack
      applyFnMode mode s pr.1 :: pr.2
    else
      let prb := jsPop stack
      let pra := jsPop prb.2
      if s = "+" then jsAdd pra.1 prb.1 :: pra.2
      else if s = "-" then jsSub pra.1 prb.1 :: pra.2
      else if s = "*" then jsMul pra.1 prb.1 :: pra.2
      else if s = "/" then jsDiv pra.1 prb.1 :: pra.2
      else if s = "^" then jsPow pra.1 prb.1 :: pra.2
      else pra.2

/-- `MathEngine.evaluateRPN` (src/app.js lines 72-100): fold the loop over
    the RPN sequence starting from an empty stack and return `stack[0]`,
    the BOTTOM of the stack — `undefined` if the stack ends up empty. -/
noncomputable def evaluateRPN (mode : AngleMode) (rpn : List RTok) : JSVal :=
  ((rpn.foldl (evalStep mode) []).getLast?).getD JSVal.undef

/-- The sanitize step of `solve`: replace `×` with `*` and `÷` with `/`. -/
def sanitize (s : String) : String :=
  String.mk (s.data.map fun c => if c = '×' then '*' else if c = '÷' then '/' else c)

/-- `MathEngine.solve` (src/app.js lines 102-115): run the pipeline, then
    `if (!isFinite(res) || isNaN(res)) throw` — so `res` is returned
    exactly when its coerced value is a finite number (a primitive finite
    number or, through `Math["constructor"]`, a finite Number wrapper
    object), and every other outcome (`±Infinity`, `NaN`, `undefined`,
    a non-finite wrapper) is caught and collapsed to the single marker
    string `"Error"`. -/
noncomputable def solve (mode : AngleMode) (expression : String) : Except String JSVal :=
  let res := evaluateRPN mode (toRPN (tokenize (sanitize expression)))
  if jsIsFinite res then Except.ok res else Except.error "Error"

/-- The plotting loop of `drawGraph` (src/app.js lines 156-171), as the
    sequence of plotted `(px, py)` pairs.  The per-column evaluation
    `engine.solve(expression.replace(/x/g, ...))` is abstracted by
    `solveAt` (printing the float `x` into the string is not modelled).
    For each pixel column `px < w` in increasing order the loop computes
    `py = h/2 - y*scale` and plots the pair only when `py` passes
    `!isNaN(py) && isFinite(py)` — which holds exactly when `solve`
    returned a value coercing to a finite number `y` rather than the
    `"Error"` marker (`"Error" * scale` is `NaN`; a finite Number wrapper
    contributes its coerced value).  A failed column is skipped and the loop
    continues with the next column. -/
noncomputable def sampleColumns (solveAt : ℕ → Except String ℝ) (w : ℕ) (h scale : ℝ) :
    List (ℕ × ℝ) :=
  (List.range w).filterMap fun px =>
    match solveAt px with
    | Except.ok y => some (px, h / 2 - y * scale)
    | Except.error _ => none

/-- Spec-side abstract syntax of plain arithmetic expressions built from
    numeric literals and the five binary operators (no functions). -/
inductive AExp where
  | lit (q : ℚ)
  | add (a b : AExp)
  | sub (a b : AExp)
  | mul (a b : AExp)
  | div (a b : AExp)
  | pow (a b : AExp)

/-- The postfix sequence of an expression: operands first, operator last. -/
def AExp.rpn : AExp → List RTok
  | AExp.lit q => [RTok.num q]
  | AExp.add a b => a.rpn ++ b.rpn ++ [RTok.sym "+"]
  | AExp.sub a b => a.rpn ++ b.rpn ++ [RTok.sym "-"]
  | AExp.mul a b => a.rpn ++ b.rpn ++ [RTok.sym "*"]
  | AExp.div a b => a.rpn ++ b.rpn ++ [RTok.sym "/"]
  | AExp.pow a b => a.rpn ++ b.rpn ++ [RTok.sym "^"]

/-- Precedence levels of the standard expression grammar. -/
inductive Lv where
  | addL
  | mulL
  | powL
  | atomL

/-- Spec-side grammar of well-formed expression token sequences, following
    the claimed standard evaluation order: `+`/`-` (level 2) and `*`/`/`
    (level 3) are left-associative, `^` (level 4) is right-associative,
    and parentheses are balanced.  `Parses lv ts e` means the token list
    `ts` derives the expression `e` at precedence level `lv`. -/
inductive Parses : Lv → List String → AExp → Prop where
  | lit {s : String} {q : ℚ} (h : parseFloat? s = some q) :
      Parses Lv.atomL [s] (AExp.lit q)
  | paren {ts : List String} {e : AExp} (h : Parses Lv.addL ts e) :
      Parses Lv.atomL ("(" :: ts ++ [")"]) e
  | atom_pow {ts : List String} {e : AExp} (h : Parses Lv.atomL ts e) :
      Parses Lv.powL ts e
  | pow {t1 t2 : List String} {e1 e2 : AExp}
      (h1 : Parses Lv.atomL t1 e1) (h2 : Parses Lv.powL t2 e2) :
      Parses Lv.powL (t1 ++ "^" :: t2) (AExp.pow e1 e2)
  | pow_mul {ts : List String} {e : AExp} (h : Parses Lv.powL ts e) :
      Parses Lv.mulL ts e
  | mul {t1 t2 : List String} {e1 e2 : AExp}
      (h1 : Parses Lv.mulL t1 e1) (h2 : Parses Lv.powL t2 e2) :
      Parses Lv.mulL (t1 ++ "*" :: t2) (AExp.mul e1 e2)
  | div {t1 t2 : List String} {e1 e2 : AExp}
      (h1 : Parses Lv.mulL t1 e1) (h2 : Parses Lv.powL t2 e2) :
      Parses Lv.mulL (t1 ++ "/" :: t2) (AExp.div e1 e2)
  | mul_add {ts : List String} {e : AExp} (h : Parses Lv.mulL ts e) :
      Parses Lv.addL ts e
  | add {t1 t2 : List String} {e1 e2 : AExp}
      (h1 : Parses Lv.addL t1 e1) (h2 : Parses Lv.mulL t2 e2) :
      Parses Lv.addL (t1 ++ "+" :: t2) (AExp.add e1 e2)
  | sub {t1 t2 : List String} {e1 e2 : AExp}
      (h1 : Parses Lv.addL t1 e1) (h2 : Parses Lv.mulL t2 e2) :
      Parses Lv.addL (t1 ++ "-" :: t2) (AExp.sub e1 e2)

/-- Spec-side standard arithmetic evaluation of an expression.  Division
    requires a nonzero divisor; `^` is the standard real power, split into
    the cases in which it is defined and finite (positive base: real power;
    zero base: nonnegative exponent; negative base: integer exponent). -/
inductive Evals : AExp → ℝ → Prop where
  | lit (q : ℚ) : Evals (AExp.lit q) (q : ℝ)
  | add {a b : AExp} {x y : ℝ} (ha : Evals a x) (hb : Evals b y) :
      Evals (AExp.add a b) (x + y)
  | sub {a b : AExp} {x y : ℝ} (ha : Evals a x) (hb : Evals b y) :
      Evals (AExp.sub a b) (x - y)
  | mul {a b : AExp} {x y : ℝ} (ha : Evals a x) (hb : Evals b y) :
      Evals (AExp.mul a b) (x * y)
  | div {a b : AExp} {x y : ℝ} (ha : Evals a x) (hb : Evals b y) (hy : y ≠ 0) :
      Evals (AExp.div a b) (x / y)
  | powPos {a b : AExp} {x y : ℝ} (ha : Evals a x) (hb : Evals b y) (hx : 0 < x) :
      Evals (AExp.pow a b) (x ^ y)
  | powZero {a b : AExp} {y : ℝ} (ha : Evals a 0) (hb : Evals b y) (hy : 0 ≤ y) :
      Evals (AExp.pow a b) ((0 : ℝ) ^ y)
  | powInt {a b : AExp} {x : ℝ} {n : ℤ} (ha : Evals a x) (hb : Evals b ((n : ℤ) : ℝ))
      (hx : x < 0) : Evals (AExp.pow a b) (x ^ n)

/-- Stack-safety bound of a level: an operator of this level pops stack
    tops of precedence `≥ lvBound`; `^` pops nothing (bound 5 is above
    every precedence), and an atom only needs a function-free stack top. -/
def lvBound : Lv → ℕ
  | Lv.addL => 2
  | Lv.mulL => 3
  | Lv.powL => 5
  | Lv.atomL => 5

/-- Lower precedence bound of the operators a level may leave pending on
    the operator stack after its run. -/
def pendB : Lv → ℕ
  | Lv.addL => 2
  | Lv.mulL => 3
  | Lv.powL => 4
  | Lv.atomL => 5

/-- The operator stack is safe below a run at bound `b`: its top is not a
    function name and is not popped by an operator of precedence `b`. -/
def StkOk (b : ℕ) : List String → Prop
  | [] => True
  | s :: _ => isMathFn s = false ∧ geJS (precedence s) (some b) = false

/-- Every operator left pending by a run has precedence at least `b`. -/
def PendOk (b : ℕ) (P : List String) : Prop :=
  ∀ s ∈ P, ∃ k, precedence s = some k ∧ b ≤ k

/-! Basic unfolding lemmas for the evaluator loop. -/

theorem evalStep_num (m : AngleMode) (st : List JSVal) (q : ℚ) :
    evalStep m st (RTok.num q) = JSVal.num (q : ℝ) :: st := rfl

theorem evalStep_add (m : AngleMode) (st : List JSVal) (a b : JSVal) :
    evalStep m (b :: a :: st) (RTok.sym "+") = jsAdd a b :: st := rfl

theorem evalStep_sub (m : AngleMode) (st : List JSVal) (a b : JSVal) :
    evalStep m (b :: a :: st) (RTok.sym "-") = jsSub a b :: st := rfl

theorem evalStep_mul (m : AngleMode) (st : List JSVal) (a b : JSVal) :
    evalStep m (b :: a :: st) (RTok.sym "*") = jsMul a b :: st := rfl

theorem evalStep_div (m : AngleMode) (st : List JSVal) (a b : JSVal) :
    evalStep m (b :: a :: st) (RTok.sym "/") = jsDiv a b :: st := rfl

theorem evalStep_pow (m : AngleMode) (st : List JSVal) (a b : JSVal) :
    evalStep m (b :: a :: st) (RTok.sym "^") = jsPow a b :: st := rfl

theorem evalStep_sin (m : AngleMode) (st : List JSVal) (a : JSVal) :
    evalStep m (a :: st) (RTok.sym "sin") = applyFnMode m "sin" a :: st := rfl

theorem evalStep_log (m : AngleMode) (st : List JSVal) (a : JSVal) :
    evalStep m (a :: st) (RTok.sym "log") = applyFnMode m "log" a :: st := rfl

theorem applyFnMode_log (m : AngleMode) (a : JSVal) :
    applyFnMode m "log" a = jsApply "log" a := rfl

theorem jsApply_log_pos {x : ℝ} (hx : 0 < x) :
    jsApply "log" (JSVal.num x) = JSVal.num (Real.log x) := by
  have h : jsApply "log" (JSVal.num x) =
      if 0 < x then JSVal.num (Real.log x)
      else if x = 0 then JSVal.neginf else JSVal.nan := rfl
  rw [h, if_pos hx]

theorem jsDiv_num {x y : ℝ} :
    jsDiv (JSVal.num x) (JSVal.num y) =
      if y = 0 then
        (if 0 < x then JSVal.inf else if x < 0 then JSVal.neginf else JSVal.nan)
      else JSVal.num (x / y) := rfl

/-- Unfolding of `solve`: the pipeline value is returned when it passes
    the finiteness test, otherwise the marker `"Error"`. -/
theorem solve_eq (m : AngleMode) (s : String) :
    solve m s =
      if jsIsFinite (evaluateRPN m (toRPN (tokenize (sanitize s)))) then
        Except.ok (evaluateRPN m (toRPN (tokenize (sanitize s))))
      else Except.error "Error" := rfl

/-- A pipeline result that is a finite primitive number is returned. -/
theorem solve_of_num {m : AngleMode} {s : String} {x : ℝ}
    (h : evaluateRPN m (toRPN (tokenize (sanitize s))) = JSVal.num x) :
    solve m s = Except.ok (JSVal.num x) := by
  rw [solve_eq, h]
  rfl

/-- A pipeline result failing the finiteness test becomes `"Error"`. -/
theorem solve_of_not_finite {m : AngleMode} {s : String} {v : JSVal}
    (h : evaluateRPN m (toRPN (tokenize (sanitize s))) = v)
    (hv : jsIsFinite v = false) :
    solve m s = Except.error "Error" := by
  rw [solve_eq, h, hv]
  rfl

/-- Totality of `solve`: the final `isFinite`/`isNaN` test of src/app.js
    lines 110-113 either returns the computed value — which then passes
    the finiteness test — or collapses every other outcome to the marker
    `"Error"`. -/
theorem solve_ok_or_error (m : AngleMode) (s : String) :
    (∃ v : JSVal, solve m s = Except.ok v ∧ jsIsFinite v = true) ∨
    solve m s = Except.error "Error" := by
  rw [solve_eq]
  by_cases h : jsIsFinite (evaluateRPN m (toRPN (tokenize (sanitize s)))) = true
  · rw [if_pos h]
    exact Or.inl ⟨_, rfl, h⟩
  · rw [if_neg h]
    exact Or.inr rfl

/-- Claim C3 — counterexample: `solve("")` does NOT yield a distinct empty
    success state; it returns the same `"Error"` marker as a failed
    evaluation (the empty RPN sequence evaluates to `undefined`, which
    fails the `isFinite` test). -/
theorem C3_counterexample : solve AngleMode.DEG "" = Except.error "Error" := rfl

/-- Claim C3 (amended): on the empty string `solve` returns the error
    marker `"Error"`; empty input is not observably distinct from a failed
    evaluation. -/
theorem C3_empty_is_error (m : AngleMode) : solve m "" = Except.error "Error" := rfl

/-- Witness for C3: the amended theorem at a concrete angle mode. -/
theorem C3_witness : solve AngleMode.RAD "" = Except.error "Error" :=
  C3_empty_is_error AngleMode.RAD

/-- Claim C4 — counterexample: `solve("foo(2)")` succeeds with `2`; the
    unknown identifier does not cause an error. -/
theorem C4_counterexample : solve AngleMode.DEG "foo(2)" = Except.ok (JSVal.num 2) := by
  have h : solve AngleMode.DEG "foo(2)" = Except.ok (JSVal.num ((2 : ℚ) : ℝ)) := rfl
  rw [h]
  norm_num

/-- Claim C4 (amended): an identifier token that is not a `Math` property
    (and is not a number, parenthesis or operator) is silently discarded
    by the shunting-yard conversion — the converter state is unchanged —
    so such identifiers never produce the error marker; in particular
    `solve("foo(2)")` returns `2`. -/
theorem C4_unknown_identifier_dropped (st : SY) (t : String)
    (hnum : parseFloat? t = none) (hfn : isMathFn t = false)
    (hlp : t ≠ "(") (hrp : t ≠ ")") (hpr : precedence t = none) :
    syStep st t = st ∧
    ∀ m : AngleMode, solve m "foo(2)" = Except.ok (JSVal.num 2) := by
  constructor
  · unfold syStep
    rw [hnum]
    simp [hfn, hlp, hrp, hpr]
  · intro m
    have h : solve m "foo(2)" = Except.ok (JSVal.num ((2 : ℚ) : ℝ)) := rfl
    rw [h]
    norm_num

/-- Witness for C4: the unknown identifier `"foo"` in the empty state. -/
theorem C4_witness :
    syStep ⟨[], []⟩ "foo" = (⟨[], []⟩ : SY) ∧
    solve AngleMode.RAD "foo(2)" = Except.ok (JSVal.num 2) := by
  have h := C4_unknown_identifier_dropped ⟨[], []⟩ "foo"
    (by decide) (by decide) (by decide) (by decide) (by decide)
  exact ⟨h.1, h.2 AngleMode.RAD⟩

/-- Claim C6: every input whose evaluation produces a non-finite value
    (`Infinity`, `-Infinity` or `NaN` — e.g. division by zero, or the
    logarithm of a non-positive number) makes `solve` return the single
    EvaluationError marker `"Error"` rather than a number; in particular
    `solve("1/0")` returns the marker in either angle mode. -/
theorem C6_nonfinite_is_error :
    (∀ (m : AngleMode) (s : String),
      (evaluateRPN m (toRPN (tokenize (sanitize s))) = JSVal.inf ∨
       evaluateRPN m (toRPN (tokenize (sanitize s))) = JSVal.neginf ∨
       evaluateRPN m (toRPN (tokenize (sanitize s))) = JSVal.nan) →
      solve m s = Except.error "Error") ∧
    (∀ m : AngleMode, solve m "1/0" = Except.error "Error") := by
  have huniv : ∀ (m : AngleMode) (s : String),
      (evaluateRPN m (toRPN (tokenize (sanitize s))) = JSVal.inf ∨
       evaluateRPN m (toRPN (tokenize (sanitize s))) = JSVal.neginf ∨
       evaluateRPN m (toRPN (tokenize (sanitize s))) = JSVal.nan) →
      solve m s = Except.error "Error" := by
    intro m s h
    rcases h with h | h | h
    · exact solve_of_not_finite h rfl
    · exact solve_of_not_finite h rfl
    · exact solve_of_not_finite h rfl
  refine ⟨huniv, fun m => huniv m "1/0" ?_⟩
  left
  have h1 : toRPN (tokenize (sanitize "1/0")) = [RTok.num 1, RTok.num 0, RTok.sym "/"] := by
    decide
  have hd : jsDiv (JSVal.num ((1 : ℚ) : ℝ)) (JSVal.num ((0 : ℚ) : ℝ)) = JSVal.inf := by
    rw [jsDiv_num, if_pos (by norm_num), if_pos (by norm_num)]
  rw [h1]
  simp only [evaluateRPN, List.foldl_cons, List.foldl_nil, evalStep_num, evalStep_div]
  rw [hd]
  rfl

/-- Witness for C6: `log(0)` evaluates to `-Infinity`, a non-finite value
    the claim's other example class (logarithm of a non-positive number)
    produces, and the theorem collapses it to the error marker. -/
theorem C6_witness : solve AngleMode.DEG "log(0)" = Except.error "Error" := by
  apply C6_nonfinite_is_error.1 AngleMode.DEG "log(0)"
  right
  left
  have h1 : toRPN (tokenize (sanitize "log(0)")) = [RTok.num 0, RTok.sym "log"] := by
    decide
  rw [h1]
  simp only [evaluateRPN, List.foldl_cons, List.foldl_nil, evalStep_num, evalStep_log,
    applyFnMode_log]
  have hz : jsApply "log" (JSVal.num ((0 : ℚ) : ℝ)) = JSVal.neginf := by
    have h : jsApply "log" (JSVal.num ((0 : ℚ) : ℝ)) =
        if 0 < ((0 : ℚ) : ℝ) then JSVal.num (Real.log ((0 : ℚ) : ℝ))
        else if ((0 : ℚ) : ℝ) = 0 then JSVal.neginf else JSVal.nan := rfl
    rw [h, if_neg (by norm_num), if_pos (by norm_num)]
  rw [hz]
  rfl

/-- Claim C7: for every input — in particular malformed parenthesization —
    `solve` terminates with either a finite numeric result or the error
    marker, never an unhandled fault; `"(2+3"` in particular ends as an
    error (the flushed `'('` consumes the stack and the final `stack[0]`
    is `undefined`). -/
theorem C7_malformed_parens_safe :
    (∀ (m : AngleMode) (s : String),
      (∃ v : JSVal, solve m s = Except.ok v) ∨ solve m s = Except.error "Error") ∧
    solve AngleMode.DEG "(2+3" = Except.error "Error" := by
  constructor
  · intro m s
    rcases solve_ok_or_error m s with ⟨v, hv, -⟩ | h
    · exact Or.inl ⟨v, hv⟩
    · exact Or.inr h
  · have h1 : toRPN (tokenize (sanitize "(2+3")) =
        [RTok.num 2, RTok.num 3, RTok.sym "+", RTok.sym "("] := by decide
    have hev : evaluateRPN AngleMode.DEG (toRPN (tokenize (sanitize "(2+3"))) =
        JSVal.undef := by
      rw [h1]
      rfl
    exact solve_of_not_finite hev rfl

/-- Claim C9: when the RPN sequence is a list of plain numbers, the
    evaluator returns the FIRST-pushed (bottom, `stack[0]`) value whatever
    the remaining values are, and `solve "2 3"` succeeds with `2`. -/
theorem C9_extra_values_discarded (m : AngleMode) (q : ℚ) (rest : List ℚ) :
    evaluateRPN m ((q :: rest).map RTok.num) = JSVal.num (q : ℝ) ∧
    solve AngleMode.DEG "2 3" = Except.ok (JSVal.num 2) := by
  have hfold : ∀ (st : List JSVal) (qs : List ℚ),
      List.foldl (evalStep m) st (qs.map RTok.num) =
        (qs.map (fun q' => JSVal.num (q' : ℝ))).reverse ++ st := by
    intro st qs
    induction qs generalizing st with
    | nil => rfl
    | cons q' qs ih => simp [evalStep_num, ih]
  constructor
  · unfold evaluateRPN
    rw [hfold]
    simp
  · have h : solve AngleMode.DEG "2 3" = Except.ok (JSVal.num ((2 : ℚ) : ℝ)) := rfl
    rw [h]
    norm_num

/-- Witness for C9: a two-number sequence returns the bottom value. -/
theorem C9_witness :
    evaluateRPN AngleMode.RAD ([2, 3].map RTok.num) = JSVal.num ((2 : ℚ) : ℝ) :=
  (C9_extra_values_discarded AngleMode.RAD 2 [3]).1

/-- Claim C10 — counterexample: on input `"constructor(5)"` the inherited
    property `Math["constructor"]` (the `Object` function) wraps `5` into
    a Number wrapper object; the wrapper passes the `isFinite` test, so
    `solve` returns the OBJECT — neither a primitive finite number nor
    the error marker `"Error"`. -/
theorem C10_counterexample :
    solve AngleMode.DEG "constructor(5)" = Except.ok (JSVal.wrap (JSVal.num 5)) ∧
    (∀ x : ℝ, solve AngleMode.DEG "constructor(5)" ≠ Except.ok (JSVal.num x)) ∧
    solve AngleMode.DEG "constructor(5)" ≠ Except.error "Error" := by
  have hEq : solve AngleMode.DEG "constructor(5)" =
      Except.ok (JSVal.wrap (JSVal.num ((5 : ℚ) : ℝ))) := rfl
  rw [show ((5 : ℚ) : ℝ) = (5 : ℝ) by norm_num] at hEq
  refine ⟨hEq, ?_, ?_⟩
  · intro x hx
    rw [hEq] at hx
    simp at hx
  · rw [hEq]
    simp

/-- Claim C10 (amended): `solve` never throws and never returns a
    non-finite value — for every input string and angle mode it returns
    either `ok` of a value passing the `isFinite` test (a finite primitive
    number or, in the `constructor` corner, a finite Number wrapper
    object) or exactly the marker string `"Error"`. -/
theorem C10_no_throw_finite_or_error (m : AngleMode) (s : String) :
    (∃ v : JSVal, solve m s = Except.ok v ∧ jsIsFinite v = true) ∨
    solve m s = Except.error "Error" :=
  solve_ok_or_error m s

/-- Witness for C10: the amended theorem at a concrete input. -/
theorem C10_witness :
    (∃ v : JSVal, solve AngleMode.DEG "7" = Except.ok v ∧ jsIsFinite v = true) ∨
    solve AngleMode.DEG "7" = Except.error "Error" :=
  C10_no_throw_finite_or_error AngleMode.DEG "7"

/-- Claim C2 — code behavior at the claimed inputs.  The code contradicts
    the claim: `Math.log` is the NATURAL logarithm, so
    `solve("log(100)")` returns `ln 100 ≈ 4.605`, not `2`; and `Math.ln`
    does not exist, so the `ln` token is silently dropped by the converter
    and `solve("ln(1)")` returns the bare argument `1`, not `0`. -/
theorem C2_code_behavior (m : AngleMode) :
    solve m "log(100)" = Except.ok (JSVal.num (Real.log 100)) ∧
    Real.log 100 ≠ 2 ∧
    solve m "ln(1)" = Except.ok (JSVal.num 1) := by
  refine ⟨?_, ?_, ?_⟩
  · have h1 : toRPN (tokenize (sanitize "log(100)")) = [RTok.num 100, RTok.sym "log"] := by
      decide
    have hev : evaluateRPN m [RTok.num 100, RTok.sym "log"] = JSVal.num (Real.log 100) := by
      simp only [evaluateRPN, List.foldl_cons, List.foldl_nil, evalStep_num, evalStep_log,
        applyFnMode_log]
      rw [show ((100 : ℚ) : ℝ) = (100 : ℝ) by norm_num]
      rw [jsApply_log_pos (by norm_num)]
      rfl
    apply solve_of_num
    rw [h1]
    exact hev
  · intro h
    have h100 : (100 : ℝ) = Real.exp 2 := by
      rw [← h, Real.exp_log (by norm_num)]
    have h2 : Real.exp 2 = Real.exp 1 * Real.exp 1 := by
      rw [← Real.exp_add]
      norm_num
    have he := Real.exp_one_lt_d9
    have hpos := Real.exp_pos 1
    nlinarith
  · have h : solve m "ln(1)" = Except.ok (JSVal.num ((1 : ℚ) : ℝ)) := rfl
    rw [h]
    norm_num

/-- Witness for C2: the `ln` behavior at a concrete angle mode. -/
theorem C2_witness : solve AngleMode.DEG "ln(1)" = Except.ok (JSVal.num 1) :=
  (C2_code_behavior AngleMode.DEG).2.2

/-- Claim C5: in DEG mode the evaluator multiplies the operand of `sin`,
    `cos`, `tan` by `π/180` before applying the function; in RAD mode, and
    for every non-trig function in either mode, no conversion happens.
    Concretely `solve("sin(90)")` is exactly `1` in DEG mode (the model
    uses exact reals) and `sin 90` (≈ 0.894, in particular not `1`) in
    RAD mode. -/
theorem C5_angle_mode_conversion (a : JSVal) (f : String) :
    ((f = "sin" ∨ f = "cos" ∨ f = "tan") →
      applyFnMode AngleMode.DEG f a = jsApply f (jsMul a (JSVal.num (Real.pi / 180)))) ∧
    applyFnMode AngleMode.RAD f a = jsApply f a ∧
    (¬(f = "sin" ∨ f = "cos" ∨ f = "tan") →
      applyFnMode AngleMode.DEG f a = jsApply f a) ∧
    solve AngleMode.DEG "sin(90)" = Except.ok (JSVal.num 1) ∧
    solve AngleMode.RAD "sin(90)" = Except.ok (JSVal.num (Real.sin 90)) ∧
    Real.sin 90 ≠ 1 := by
  have hsin : ∀ x : ℝ, jsApply "sin" (JSVal.num x) = JSVal.num (Real.sin x) := fun x => rfl
  have h1 : toRPN (tokenize (sanitize "sin(90)")) = [RTok.num 90, RTok.sym "sin"] := by
    decide
  refine ⟨?_, ?_, ?_, ?_, ?_, ?_⟩
  · intro h
    unfold applyFnMode
    rw [if_pos ⟨h, rfl⟩]
  · unfold applyFnMode
    rw [if_neg (by simp)]
  · intro h
    unfold applyFnMode
    rw [if_neg (fun hc => h hc.1)]
  · have hev : evaluateRPN AngleMode.DEG [RTok.num 90, RTok.sym "sin"] = JSVal.num 1 := by
      simp only [evaluateRPN, List.foldl_cons, List.foldl_nil, evalStep_num, evalStep_sin]
      have hc : applyFnMode AngleMode.DEG "sin" (JSVal.num ((90 : ℚ) : ℝ)) =
          JSVal.num (Real.sin (((90 : ℚ) : ℝ) * (Real.pi / 180))) := rfl
      rw [hc]
      have harg : ((90 : ℚ) : ℝ) * (Real.pi / 180) = Real.pi / 2 := by
        push_cast
        ring
      rw [harg, Real.sin_pi_div_two]
      rfl
    apply solve_of_num
    rw [h1]
    exact hev
  · have hev : evaluateRPN AngleMode.RAD [RTok.num 90, RTok.sym "sin"] =
        JSVal.num (Real.sin 90) := by
      simp only [evaluateRPN, List.foldl_cons, List.foldl_nil, evalStep_num, evalStep_sin]
      have hc : applyFnMode AngleMode.RAD "sin" (JSVal.num ((90 : ℚ) : ℝ)) =
          JSVal.num (Real.sin ((90 : ℚ) : ℝ)) := rfl
      rw [hc]
      rw [show ((90 : ℚ) : ℝ) = (90 : ℝ) by norm_num]
      rfl
    apply solve_of_num
    rw [h1]
    exact hev
  · intro h
    obtain ⟨k, hk⟩ := Real.sin_eq_one_iff.mp h
    have hpi : Real.pi * (1 + 4 * (k : ℝ)) = 180 := by linear_combination 2 * hk
    have hz : (1 : ℝ) + 4 * (k : ℝ) ≠ 0 := by
      have hzk : ((1 + 4 * k : ℤ) : ℝ) ≠ 0 := Int.cast_ne_zero.mpr (by omega)
      push_cast at hzk
      exact hzk
    have h2 : Real.pi = ((180 / (1 + 4 * (k : ℚ)) : ℚ) : ℝ) := by
      push_cast
      rw [eq_div_iff hz]
      exact hpi
    exact Rat.not_irrational _ (h2 ▸ irrational_pi)

/-- Witness for C5: the conversion equations at concrete inputs. -/
theorem C5_witness :
    applyFnMode AngleMode.DEG "sin" (JSVal.num 30) =
      jsApply "sin" (jsMul (JSVal.num 30) (JSVal.num (Real.pi / 180))) ∧
    applyFnMode AngleMode.DEG "sqrt" (JSVal.num 30) = jsApply "sqrt" (JSVal.num 30) := by
  refine ⟨?_, ?_⟩
  · exact (C5_angle_mode_conversion (JSVal.num 30) "sin").1 (Or.inl rfl)
  · exact (C5_angle_mode_conversion (JSVal.num 30) "sqrt").2.2.1 (by decide)

/-- The pixel column of every emitted sample is the column it was computed
    at, so the emitted columns form a sublist of `range w`. -/
theorem sampleColumns_fst_sublist (solveAt : ℕ → Except String ℝ) (w : ℕ) (h scale : ℝ) :
    ((sampleColumns solveAt w h scale).map Prod.fst).Sublist (List.range w) := by
  have key : ∀ l : List ℕ,
      ((l.filterMap fun px =>
        match solveAt px with
        | Except.ok y => some (px, h / 2 - y * scale)
        | Except.error _ => none).map Prod.fst).Sublist l := by
    intro l
    induction l with
    | nil => simp
    | cons a l ih =>
      rw [List.filterMap_cons]
      cases hsa : solveAt a with
      | ok y => simpa using ih.cons₂ a
      | error e => simpa using ih.cons a
  exact key (List.range w)

/-- Claim C8: the sampling loop of `drawGraph` visits pixel columns in
    strictly increasing order; a pair is emitted exactly for the columns
    whose evaluation succeeds (with the plotted value `h/2 - y*scale`),
    and an evaluation failure at one column does not abort the loop —
    every later (and earlier) successful column is still emitted. -/
theorem C8_sampling_loop (solveAt : ℕ → Except String ℝ) (w : ℕ) (h scale : ℝ) :
    List.Pairwise (· < ·) ((sampleColumns solveAt w h scale).map Prod.fst) ∧
    (∀ px py, (px, py) ∈ sampleColumns solveAt w h scale →
      px < w ∧ ∃ y, solveAt px = Except.ok y ∧ py = h / 2 - y * scale) ∧
    (∀ px y, px < w → solveAt px = Except.ok y →
      (px, h / 2 - y * scale) ∈ sampleColumns solveAt w h scale) := by
  refine ⟨?_, ?_, ?_⟩
  · exact List.Pairwise.sublist (sampleColumns_fst_sublist solveAt w h scale)
      (List.pairwise_lt_range w)
  · intro px py hmem
    rw [sampleColumns, List.mem_filterMap] at hmem
    obtain ⟨a, ha, hfa⟩ := hmem
    cases hsa : solveAt a with
    | ok y =>
      rw [hsa] at hfa
      have hax : a = px ∧ h / 2 - y * scale = py := by
        constructor
        · exact congrArg Prod.fst (Option.some_injective _ hfa)
        · exact congrArg Prod.snd (Option.some_injective _ hfa)
      refine ⟨hax.1 ▸ List.mem_range.mp ha, y, ?_, hax.2.symm⟩
      rw [← hax.1]
      exact hsa
    | error e =>
      rw [hsa] at hfa
      exact absurd hfa (by simp)
  · intro px y hpx hok
    rw [sampleColumns, List.mem_filterMap]
    exact ⟨px, List.mem_range.mpr hpx, by rw [hok]⟩

/-- Witness for C8: a three-column run whose middle column fails still
    emits the third column. -/
theorem C8_witness :
    (2, (4 : ℝ) / 2 - 1 * 3) ∈
      sampleColumns (fun n => if n = 1 then Except.error "Error" else Except.ok 1) 3 4 3 := by
  exact (C8_sampling_loop (fun n => if n = 1 then Except.error "Error" else Except.ok 1)
    3 4 3).2.2 2 1 (by norm_num) (by norm_num)

/-! Shunting-yard correctness infrastructure for claim C1. -/

theorem syList_append (st : SY) (l1 l2 : List String) :
    syList st (l1 ++ l2) = syList (syList st l1) l2 :=
  List.foldl_append _ _ _ _

theorem prec_le_four {s : String} {k : ℕ} (h : precedence s = some k) : k ≤ 4 := by
  unfold precedence at h
  split_ifs at h <;> simp_all <;> omega

theorem geJS_some_five (s : String) : geJS (precedence s) (some 5) = false := by
  cases hp : precedence s with
  | none => rfl
  | some k =>
    have hk := prec_le_four hp
    simp only [geJS, decide_eq_false_iff_not]
    omega

theorem geJS_mono {s : String} {b b' : ℕ} (hb : b ≤ b')
    (h : geJS (precedence s) (some b) = false) :
    geJS (precedence s) (some b') = false := by
  cases hp : precedence s with
  | none => rfl
  | some k =>
    rw [hp] at h
    simp only [geJS, decide_eq_false_iff_not] at h ⊢
    omega

theorem StkOk_mono {b b' : ℕ} (hb : b ≤ b') {stk : List String} (h : StkOk b stk) :
    StkOk b' stk := by
  cases stk with
  | nil => trivial
  | cons s r => exact ⟨h.1, geJS_mono hb h.2⟩

theorem StkOk_five_of {b : ℕ} {stk : List String} (h : StkOk b stk) : StkOk 5 stk := by
  cases stk with
  | nil => trivial
  | cons s r => exact ⟨h.1, geJS_some_five s⟩

/-- An operator token pops nothing past a stack whose top it may not pop. -/
theorem popOps_stop {stk : List String} {t : String} {pt : ℕ}
    (ht : precedence t = some pt) (hstk : StkOk pt stk) :
    popOps stk t = ([], stk) := by
  cases stk with
  | nil => rfl
  | cons s r =>
    unfold popOps
    rw [ht, hstk.2]
    rfl

/-- A left-associative operator token of precedence `pt` pops exactly the
    pending operators of precedence `≥ pt` and stops at a safe stack. -/
theorem popOps_all {t : String} {pt : ℕ} (ht : precedence t = some pt)
    (ha : assocRight t = false) {P stk : List String}
    (hstk : StkOk pt stk) :
    (∀ s ∈ P, ∃ k, precedence s = some k ∧ pt ≤ k) →
    popOps (P ++ stk) t = (P, stk) := by
  induction P with
  | nil =>
    intro _
    simpa using popOps_stop ht hstk
  | cons s P ih =>
    intro hP
    obtain ⟨k, hk, hpk⟩ := hP s (by simp)
    have hg : geJS (precedence s) (precedence t) = true := by
      rw [ht, hk]
      simp only [geJS, decide_eq_true_eq]
      omega
    have hne : ¬(precedence s = precedence t ∧ assocRight t = true) := by
      rintro ⟨-, h2⟩
      rw [ha] at h2
      exact Bool.false_ne_true h2
    have hrec := ih (fun x hx => hP x (List.mem_cons_of_mem s hx))
    unfold popOps
    rw [List.cons_append]
    show (if geJS (precedence s) (precedence t) = true then _ else _) = _
    rw [hg, if_pos rfl, if_neg hne, hrec]

/-- The `'^'` token pops nothing: nothing on the stack has precedence
    above 4, and equal precedence breaks the loop (right associativity). -/
theorem popOps_hat (stk : List String) : popOps stk "^" = ([], stk) := by
  cases stk with
  | nil => rfl
  | cons s r =>
    by_cases hg : geJS (precedence s) (precedence "^") = true
    · have hs4 : precedence s = some 4 := by
        cases hp : precedence s with
        | none => rw [hp] at hg; exact absurd hg (by simp [geJS])
        | some k =>
          rw [hp] at hg
          have h1 := prec_le_four hp
          have h2 : 4 ≤ k := by simpa [geJS, precedence] using hg
          rw [le_antisymm h1 h2]
      unfold popOps
      rw [hg, if_pos rfl, if_pos ⟨by rw [hs4]; rfl, rfl⟩]
    · unfold popOps
      rw [Bool.not_eq_true] at hg
      rw [hg]
      rfl

/-- The `')'` pop loop removes exactly the pending operators above the
    matching `'('`. -/
theorem popUntilParen_all {P : List String} (stk : List String) :
    (∀ s ∈ P, s ≠ "(") →
    popUntilParen (P ++ "(" :: stk) = (P, "(" :: stk) := by
  induction P with
  | nil => intro _; rfl
  | cons s P ih =>
    intro hP
    unfold popUntilParen
    rw [List.cons_append]
    show (if s = "(" then _ else _) = _
    rw [if_neg (hP s (by simp)), ih (fun x hx => hP x (List.mem_cons_of_mem s hx))]

/-- Main invariant of the shunting-yard run: over the token sequence of a
    level-`lv` expression, starting from any operator stack that is safe
    for that level, the loop appends exactly the expression's postfix
    prefix `A` to the output and leaves a pending operator list `P` on top
    of the untouched stack, with `A ++ P` (as symbols) equal to the full
    postfix sequence and every pending operator of precedence at least
    `pendB lv`. -/
theorem sy_run {lv : Lv} {ts : List String} {e : AExp} (h : Parses lv ts e) :
    ∀ out stk, StkOk (lvBound lv) stk →
      ∃ A P, syList ⟨out, stk⟩ ts = ⟨out ++ A, P ++ stk⟩ ∧
        A ++ P.map RTok.sym = e.rpn ∧ PendOk (pendB lv) P := by
  induction h with
  | lit hq =>
    rename_i s q
    intro out stk hstk
    refine ⟨[RTok.num q], [], ?_, rfl, ?_⟩
    · show syStep ⟨out, stk⟩ s = _
      unfold syStep
      rw [hq]
      simp
    · intro x hx
      cases hx
  | paren h ih =>
    rename_i ts e
    intro out stk hstk
    have hin : StkOk (lvBound Lv.addL) ("(" :: stk) := ⟨by decide, by decide⟩
    obtain ⟨A, P, hrun, hAP, hP⟩ := ih out ("(" :: stk) hin
    refine ⟨A ++ P.map RTok.sym, [], ?_, ?_, ?_⟩
    · rw [syList_append]
      have e1 : syList ⟨out, stk⟩ ("(" :: ts) = syList ⟨out, "(" :: stk⟩ ts := rfl
      rw [e1, hrun]
      show handleRParen ⟨out ++ A, P ++ "(" :: stk⟩ = _
      have hnp : ∀ x ∈ P, x ≠ "(" := by
        intro x hx heq
        obtain ⟨k, hk, hbk⟩ := hP x hx
        rw [heq] at hk
        have : (0 : ℕ) = k := by simpa [precedence] using hk
        simp [pendB] at hbk
        omega
      unfold handleRParen
      rw [popUntilParen_all stk hnp]
      simp only [List.tail_cons]
      cases stk with
      | nil => simp
      | cons f r =>
        have h1 : isMathFn f = false := hstk.1
        simp [h1]
    · simp [hAP]
    · intro x hx
      cases hx
  | atom_pow h ih =>
    intro out stk hstk
    obtain ⟨A, P, hrun, hAP, hP⟩ := ih out stk hstk
    exact ⟨A, P, hrun, hAP, fun x hx =>
      let ⟨k, hk, h5⟩ := hP x hx
      ⟨k, hk, by simp [pendB] at h5 ⊢; omega⟩⟩
  | pow h1 h2 ih1 ih2 =>
    rename_i t1 t2 e1 e2
    intro out stk hstk
    obtain ⟨A1, P1, hrun1, hAP1, hP1⟩ := ih1 out stk hstk
    have hP1nil : P1 = [] := by
      rw [List.eq_nil_iff_forall_not_mem]
      intro x hx
      obtain ⟨k, hk, h5⟩ := hP1 x hx
      have h4 := prec_le_four hk
      simp [pendB] at h5
      omega
    subst hP1nil
    have hA1 : A1 = e1.rpn := by simpa using hAP1
    obtain ⟨A2, P2, hrun2, hAP2, hP2⟩ :=
      ih2 (out ++ A1) ("^" :: stk) ⟨by decide, by decide⟩
    refine ⟨A1 ++ A2, P2 ++ ["^"], ?_, ?_, ?_⟩
    · rw [syList_append, hrun1]
      simp only [List.nil_append]
      show syList (syStep ⟨out ++ A1, stk⟩ "^") t2 = _
      have e2 : syStep ⟨out ++ A1, stk⟩ "^" = ⟨out ++ A1, "^" :: stk⟩ := by
        show handleOp ⟨out ++ A1, stk⟩ "^" = _
        unfold handleOp
        rw [popOps_hat]
        simp
      rw [e2, hrun2]
      simp [List.append_assoc]
    · simp only [AExp.rpn, List.map_append, List.map_cons, List.map_nil]
      rw [hA1, ← hAP2]
      simp [List.append_assoc]
    · intro x hx
      rcases List.mem_append.mp hx with hx | hx
      · obtain ⟨k, hk, h4⟩ := hP2 x hx
        exact ⟨k, hk, h4⟩
      · simp at hx
        subst hx
        exact ⟨4, rfl, by simp [pendB]⟩
  | pow_mul h ih =>
    intro out stk hstk
    obtain ⟨A, P, hrun, hAP, hP⟩ := ih out stk (StkOk_five_of hstk)
    exact ⟨A, P, hrun, hAP, fun x hx =>
      let ⟨k, hk, h4⟩ := hP x hx
      ⟨k, hk, by simp [pendB] at h4 ⊢; omega⟩⟩
  | mul h1 h2 ih1 ih2 =>
    rename_i t1 t2 e1 e2
    intro out stk hstk
    obtain ⟨A1, P1, hrun1, hAP1, hP1⟩ := ih1 out stk hstk
    obtain ⟨A2, P2, hrun2, hAP2, hP2⟩ :=
      ih2 (out ++ A1 ++ P1.map RTok.sym) ("*" :: stk) ⟨by decide, by decide⟩
    refine ⟨A1 ++ P1.map RTok.sym ++ A2, P2 ++ ["*"], ?_, ?_, ?_⟩
    · rw [syList_append, hrun1]
      show syList (syStep ⟨out ++ A1, P1 ++ stk⟩ "*") t2 = _
      have e2 : syStep ⟨out ++ A1, P1 ++ stk⟩ "*" =
          ⟨out ++ A1 ++ P1.map RTok.sym, "*" :: stk⟩ := by
        show handleOp ⟨out ++ A1, P1 ++ stk⟩ "*" = _
        unfold handleOp
        rw [@popOps_all "*" 3 rfl rfl P1 stk hstk hP1]
      rw [e2, hrun2]
      simp [List.append_assoc]
    · simp only [AExp.rpn, List.map_append, List.map_cons, List.map_nil]
      rw [← hAP1, ← hAP2]
      simp [List.append_assoc]
    · intro x hx
      rcases List.mem_append.mp hx with hx | hx
      · obtain ⟨k, hk, h4⟩ := hP2 x hx
        exact ⟨k, hk, by simp [pendB] at h4 ⊢; omega⟩
      · simp at hx
        subst hx
        exact ⟨3, rfl, by simp [pendB]⟩
  | div h1 h2 ih1 ih2 =>
    rename_i t1 t2 e1 e2
    intro out stk hstk
    obtain ⟨A1, P1, hrun1, hAP1, hP1⟩ := ih1 out stk hstk
    obtain ⟨A2, P2, hrun2, hAP2, hP2⟩ :=
      ih2 (out ++ A1 ++ P1.map RTok.sym) ("/" :: stk) ⟨by decide, by decide⟩
    refine ⟨A1 ++ P1.map RTok.sym ++ A2, P2 ++ ["/"], ?_, ?_, ?_⟩
    · rw [syList_append, hrun1]
      show syList (syStep ⟨out ++ A1, P1 ++ stk⟩ "/") t2 = _
      have e2 : syStep ⟨out ++ A1, P1 ++ stk⟩ "/" =
          ⟨out ++ A1 ++ P1.map RTok.sym, "/" :: stk⟩ := by
        show handleOp ⟨out ++ A1, P1 ++ stk⟩ "/" = _
        unfold handleOp
        rw [@popOps_all "/" 3 rfl rfl P1 stk hstk hP1]
      rw [e2, hrun2]
      simp [List.append_assoc]
    · simp only [AExp.rpn, List.map_append, List.map_cons, List.map_nil]
      rw [← hAP1, ← hAP2]
      simp [List.append_assoc]
    · intro x hx
      rcases List.mem_append.mp hx with hx | hx
      · obtain ⟨k, hk, h4⟩ := hP2 x hx
        exact ⟨k, hk, by simp [pendB] at h4 ⊢; omega⟩
      · simp at hx
        subst hx
        exact ⟨3, rfl, by simp [pendB]⟩
  | mul_add h ih =>
    intro out stk hstk
    obtain ⟨A, P, hrun, hAP, hP⟩ := ih out stk (StkOk_mono (by decide) hstk)
    exact ⟨A, P, hrun, hAP, fun x hx =>
      let ⟨k, hk, h3⟩ := hP x hx
      ⟨k, hk, by simp [pendB] at h3 ⊢; omega⟩⟩
  | add h1 h2 ih1 ih2 =>
    rename_i t1 t2 e1 e2
    intro out stk hstk
    obtain ⟨A1, P1, hrun1, hAP1, hP1⟩ := ih1 out stk hstk
    obtain ⟨A2, P2, hrun2, hAP2, hP2⟩ :=
      ih2 (out ++ A1 ++ P1.map RTok.sym) ("+" :: stk) ⟨by decide, by decide⟩
    refine ⟨A1 ++ P1.map RTok.sym ++ A2, P2 ++ ["+"], ?_, ?_, ?_⟩
    · rw [syList_append, hrun1]
      show syList (syStep ⟨out ++ A1, P1 ++ stk⟩ "+") t2 = _
      have e2 : syStep ⟨out ++ A1, P1 ++ stk⟩ "+" =
          ⟨out ++ A1 ++ P1.map RTok.sym, "+" :: stk⟩ := by
        show handleOp ⟨out ++ A1, P1 ++ stk⟩ "+" = _
        unfold handleOp
        rw [@popOps_all "+" 2 rfl rfl P1 stk hstk hP1]
      rw [e2, hrun2]
      simp [List.append_assoc]
    · simp only [AExp.rpn, List.map_append, List.map_cons, List.map_nil]
      rw [← hAP1, ← hAP2]
      simp [List.append_assoc]
    · intro x hx
      rcases List.mem_append.mp hx with hx | hx
      · obtain ⟨k, hk, h3⟩ := hP2 x hx
        exact ⟨k, hk, by simp [pendB] at h3 ⊢; omega⟩
      · simp at hx
        subst hx
        exact ⟨2, rfl, by simp [pendB]⟩
  | sub h1 h2 ih1 ih2 =>
    rename_i t1 t2 e1 e2
    intro out stk hstk
    obtain ⟨A1, P1, hrun1, hAP1, hP1⟩ := ih1 out stk hstk
    obtain ⟨A2, P2, hrun2, hAP2, hP2⟩ :=
      ih2 (out ++ A1 ++ P1.map RTok.sym) ("-" :: stk) ⟨by decide, by decide⟩
    refine ⟨A1 ++ P1.map RTok.sym ++ A2, P2 ++ ["-"], ?_, ?_, ?_⟩
    · rw [syList_append, hrun1]
      show syList (syStep ⟨out ++ A1, P1 ++ stk⟩ "-") t2 = _
      have e2 : syStep ⟨out ++ A1, P1 ++ stk⟩ "-" =
          ⟨out ++ A1 ++ P1.map RTok.sym, "-" :: stk⟩ := by
        show handleOp ⟨out ++ A1, P1 ++ stk⟩ "-" = _
        unfold handleOp
        rw [@popOps_all "-" 2 rfl rfl P1 stk hstk hP1]
      rw [e2, hrun2]
      simp [List.append_assoc]
    · simp only [AExp.rpn, List.map_append, List.map_cons, List.map_nil]
      rw [← hAP1, ← hAP2]
      simp [List.append_assoc]
    · intro x hx
      rcases List.mem_append.mp hx with hx | hx
      · obtain ⟨k, hk, h3⟩ := hP2 x hx
        exact ⟨k, hk, by simp [pendB] at h3 ⊢; omega⟩
      · simp at hx
        subst hx
        exact ⟨2, rfl, by simp [pendB]⟩

/-- Shunting-yard correctness on well-formed token sequences: `toRPN`
    produces exactly the standard postfix sequence of the parsed
    expression (the final stack flush emits the pending operators). -/
theorem toRPN_parses {ts : List String} {e : AExp} (h : Parses Lv.addL ts e) :
    toRPN ts = e.rpn := by
  obtain ⟨A, P, hrun, hAP, -⟩ := sy_run h [] [] trivial
  unfold toRPN
  rw [hrun]
  simpa using hAP

open Classical in
theorem jsPow_num_eq (x y : ℝ) :
    jsPow (JSVal.num x) (JSVal.num y) = if y = 0 then JSVal.num 1 else jsPowFin x y := rfl

theorem jsPowFin_pos {x : ℝ} (y : ℝ) (hx : 0 < x) : jsPowFin x y = JSVal.num (x ^ y) := by
  unfold jsPowFin
  rw [if_neg (ne_of_gt hx), if_pos hx]

theorem jsPowFin_zero {y : ℝ} (hy : 0 < y) : jsPowFin 0 y = JSVal.num 0 := by
  unfold jsPowFin
  rw [if_pos rfl, if_pos hy]

theorem jsPowFin_neg_int {x : ℝ} (n : ℤ) (hx : x < 0) :
    jsPowFin x ((n : ℤ) : ℝ) = JSVal.num (x ^ n) := by
  unfold jsPowFin
  rw [if_neg (ne_of_lt hx), if_neg (not_lt.mpr hx.le)]
  have hex : ∃ m : ℤ, (m : ℝ) = ((n : ℤ) : ℝ) := ⟨n, rfl⟩
  rw [dif_pos hex]
  have hmn : hex.choose = n := by
    have hspec := hex.choose_spec
    exact_mod_cast hspec
  rw [hmn]

/-- The postfix evaluator computes the standard value of an expression's
    postfix sequence on top of any starting stack, in any angle mode
    (no functions occur in plain arithmetic expressions). -/
theorem evalRPN_evals {e : AExp} {v : ℝ} (h : Evals e v) :
    ∀ (m : AngleMode) (st : List JSVal),
      List.foldl (evalStep m) st e.rpn = JSVal.num v :: st := by
  induction h with
  | lit q => intro m st; rfl
  | add ha hb iha ihb =>
    intro m st
    simp only [AExp.rpn]
    rw [List.foldl_append, List.foldl_append, iha, ihb]
    rfl
  | sub ha hb iha ihb =>
    intro m st
    simp only [AExp.rpn]
    rw [List.foldl_append, List.foldl_append, iha, ihb]
    rfl
  | mul ha hb iha ihb =>
    intro m st
    simp only [AExp.rpn]
    rw [List.foldl_append, List.foldl_append, iha, ihb]
    rfl
  | div ha hb hy iha ihb =>
    rename_i a b x y
    intro m st
    simp only [AExp.rpn]
    rw [List.foldl_append, List.foldl_append, iha, ihb]
    show jsDiv (JSVal.num x) (JSVal.num y) :: st = _
    rw [jsDiv_num, if_neg hy]
  | powPos ha hb hx iha ihb =>
    rename_i a b x y
    intro m st
    simp only [AExp.rpn]
    rw [List.foldl_append, List.foldl_append, iha, ihb]
    show jsPow (JSVal.num x) (JSVal.num y) :: st = _
    rw [jsPow_num_eq]
    by_cases hy : y = 0
    · subst hy
      rw [if_pos rfl, Real.rpow_zero]
    · rw [if_neg hy, jsPowFin_pos y hx]
  | powZero ha hb hy iha ihb =>
    rename_i a b y
    intro m st
    simp only [AExp.rpn]
    rw [List.foldl_append, List.foldl_append, iha, ihb]
    show jsPow (JSVal.num 0) (JSVal.num y) :: st = _
    rw [jsPow_num_eq]
    by_cases hy0 : y = 0
    · subst hy0
      rw [if_pos rfl, Real.rpow_zero]
    · rw [if_neg hy0, jsPowFin_zero (lt_of_le_of_ne hy (Ne.symm hy0)),
        Real.zero_rpow hy0]
  | powInt ha hb hx iha ihb =>
    rename_i a b x n
    intro m st
    simp only [AExp.rpn]
    rw [List.foldl_append, List.foldl_append, iha, ihb]
    show jsPow (JSVal.num x) (JSVal.num ((n : ℤ) : ℝ)) :: st = _
    rw [jsPow_num_eq]
    by_cases hn : ((n : ℤ) : ℝ) = 0
    · have hn0 : n = 0 := by exact_mod_cast hn
      subst hn0
      rw [if_pos hn, zpow_zero]
    · rw [if_neg hn, jsPowFin_neg_int n hx]

theorem evaluateRPN_evals {e : AExp} {v : ℝ} (h : Evals e v) (m : AngleMode) :
    evaluateRPN m e.rpn = JSVal.num v := by
  unfold evaluateRPN
  rw [evalRPN_evals h m []]
  rfl

/-- Claim C1: for every well-formed expression string — one whose token
    sequence derives an expression `e` under the standard grammar with
    `^` right-associative at level 4, `*`/`/` at 3 and `+`/`-` at 2 —
    whenever `e` has a standard arithmetic value `v`, `solve` returns
    exactly `v`, in either angle mode. -/
theorem C1_solve_standard_arithmetic (m : AngleMode) (s : String) (e : AExp) (v : ℝ)
    (hp : Parses Lv.addL (tokenize (sanitize s)) e) (he : Evals e v) :
    solve m s = Except.ok (JSVal.num v) := by
  apply solve_of_num
  rw [toRPN_parses hp]
  exact evaluateRPN_evals he m

/-- Witness for C1: the three example expressions of the claim. -/
theorem C1_witness :
    solve AngleMode.DEG "2+3*4" = Except.ok (JSVal.num 14) ∧
    solve AngleMode.DEG "(2+3)*4" = Except.ok (JSVal.num 20) ∧
    solve AngleMode.DEG "2^3^2" = Except.ok (JSVal.num 512) := by
  have lit2 : Parses Lv.atomL ["2"] (AExp.lit 2) := Parses.lit (by decide)
  have lit3 : Parses Lv.atomL ["3"] (AExp.lit 3) := Parses.lit (by decide)
  have lit4 : Parses Lv.atomL ["4"] (AExp.lit 4) := Parses.lit (by decide)
  refine ⟨?_, ?_, ?_⟩
  · have hp : Parses Lv.addL (tokenize (sanitize "2+3*4"))
        (AExp.add (AExp.lit 2) (AExp.mul (AExp.lit 3) (AExp.lit 4))) := by
      rw [show tokenize (sanitize "2+3*4") = ["2", "+", "3", "*", "4"] from by decide]
      exact Parses.add (Parses.mul_add (Parses.pow_mul (Parses.atom_pow lit2)))
        (Parses.mul (Parses.pow_mul (Parses.atom_pow lit3)) (Parses.atom_pow lit4))
    have he : Evals (AExp.add (AExp.lit 2) (AExp.mul (AExp.lit 3) (AExp.lit 4)))
        (((2 : ℚ) : ℝ) + ((3 : ℚ) : ℝ) * ((4 : ℚ) : ℝ)) :=
      Evals.add (Evals.lit 2) (Evals.mul (Evals.lit 3) (Evals.lit 4))
    rw [C1_solve_standard_arithmetic AngleMode.DEG "2+3*4" _ _ hp he]
    norm_num
  · have hp : Parses Lv.addL (tokenize (sanitize "(2+3)*4"))
        (AExp.mul (AExp.add (AExp.lit 2) (AExp.lit 3)) (AExp.lit 4)) := by
      rw [show tokenize (sanitize "(2+3)*4") = ["(", "2", "+", "3", ")", "*", "4"] from by
        decide]
      have h23 : Parses Lv.addL ["2", "+", "3"] (AExp.add (AExp.lit 2) (AExp.lit 3)) :=
        Parses.add (Parses.mul_add (Parses.pow_mul (Parses.atom_pow lit2)))
          (Parses.pow_mul (Parses.atom_pow lit3))
      exact Parses.mul_add
        (Parses.mul (Parses.pow_mul (Parses.atom_pow (Parses.paren h23)))
          (Parses.atom_pow lit4))
    have he : Evals (AExp.mul (AExp.add (AExp.lit 2) (AExp.lit 3)) (AExp.lit 4))
        ((((2 : ℚ) : ℝ) + ((3 : ℚ) : ℝ)) * ((4 : ℚ) : ℝ)) :=
      Evals.mul (Evals.add (Evals.lit 2) (Evals.lit 3)) (Evals.lit 4)
    rw [C1_solve_standard_arithmetic AngleMode.DEG "(2+3)*4" _ _ hp he]
    norm_num
  · have hp : Parses Lv.addL (tokenize (sanitize "2^3^2"))
        (AExp.pow (AExp.lit 2) (AExp.pow (AExp.lit 3) (AExp.lit 2))) := by
      rw [show tokenize (sanitize "2^3^2") = ["2", "^", "3", "^", "2"] from by decide]
      exact Parses.mul_add (Parses.pow_mul
        (Parses.pow lit2 (Parses.pow lit3 (Parses.atom_pow lit2))))
    have he : Evals (AExp.pow (AExp.lit 2) (AExp.pow (AExp.lit 3) (AExp.lit 2)))
        (((2 : ℚ) : ℝ) ^ (((3 : ℚ) : ℝ) ^ ((2 : ℚ) : ℝ))) :=
      Evals.powPos (Evals.lit 2)
        (Evals.powPos (Evals.lit 3) (Evals.lit 2) (by norm_num)) (by norm_num)
    rw [C1_solve_standard_arithmetic AngleMode.DEG "2^3^2" _ _ hp he]
    have h32 : ((3 : ℚ) : ℝ) ^ ((2 : ℚ) : ℝ) = (9 : ℝ) := by
      rw [show ((2 : ℚ) : ℝ) = ((2 : ℕ) : ℝ) by norm_num, Real.rpow_natCast]
      norm_num
    rw [h32]
    have h29 : ((2 : ℚ) : ℝ) ^ (9 : ℝ) = (512 : ℝ) := by
      rw [show (9 : ℝ) = ((9 : ℕ) : ℝ) by norm_num, Real.rpow_natCast]
      norm_num
    rw [h29]
